import Mathlib

/-!
Verification of the MQTT relay microservice core against its specification.

Shallow embedding of the relevant Go source:
* `internal/utils` topic matcher (`TopicMatchesFilter`)
* `internal/api/api.go` webhook dispatch (`sendWebhookNotificationToURL`)
* `internal/mqtt/mqtt.go` connection supervisor (`Manager.GetClient`, `Client.Publish`)
* `internal/database/sqlite.go` and `internal/database/mongodb.go` outbox store
* `internal/models/webhook.go` and `internal/api/database_handlers.go` webhook registry
-/

set_option maxHeartbeats 1000000

/-! ## Topic matcher (internal/utils, TopicMatchesFilter) -/

/-- Model of Go `strings.Split(s, "/")` restricted to the one-character
separator used by the matcher: cut the character list at every `'/'`.
`splitLevelsAux [] acc` yields the final (possibly empty) level. -/
def splitLevelsAux : List Char → List Char → List (List Char)
  | [], acc => [acc.reverse]
  | c :: cs, acc =>
    if c = '/' then acc.reverse :: splitLevelsAux cs []
    else splitLevelsAux cs (c :: acc)

/-- Go `strings.Split(s, "/")` : the list of topic/filter levels of `s`. -/
def splitLevels (s : String) : List String :=
  (splitLevelsAux s.data []).map List.asString

/-- Model of Go `strings.HasSuffix(s, "#")`: the last character of `s`
is `'#'` (`'#'` is ASCII, so last byte and last character agree). -/
def hasHashSuffix (s : String) : Bool :=
  s.data.getLast? = some '#'

/-- The level-comparison loop of `TopicMatchesFilter`
(`for i := 0; i < len(filterLevels); i++ { ... }`): a filter level `"+"`
matches any topic level, any other filter level must equal the topic level.
The `_ :: _, []` case is unreachable at every call site because the Go code
only reaches the loop after checking
`len(topicLevels) >= len(filterLevels)` (resp. equality). -/
def matchLevels : List String → List String → Bool
  | [], _ => true
  | _ :: _, [] => false
  | f :: fs, t :: ts => (f == "+" || f == t) && matchLevels fs ts

/-- Go `utils.TopicMatchesFilter(topic, filter)` (src/unnamed/part_005):
if the filter string ends in `'#'`, drop the final level
(`filterLevels[:len(filterLevels)-1]`) and require the topic to have at
least that many levels; otherwise require equal level counts; then compare
level by level with `'+'` as a single-level wildcard. -/
def TopicMatchesFilter (topic filter : String) : Bool :=
  let topicLevels := splitLevels topic
  let filterLevels := splitLevels filter
  if hasHashSuffix filter then
    let filterLevels' := filterLevels.dropLast
    if topicLevels.length < filterLevels'.length then false
    else matchLevels filterLevels' topicLevels
  else
    if topicLevels.length ≠ filterLevels.length then false
    else matchLevels filterLevels topicLevels

/-- Spec-side positional matching: each filter level up to the filter's
length is either the single-level wildcard `"+"` or equal to the
corresponding topic level. -/
def levelsMatchPositionally (fl tl : List String) : Prop :=
  ∀ i, i < fl.length → (fl.getD i "" = "+" ∨ fl.getD i "" = tl.getD i "")

instance (fl tl : List String) : Decidable (levelsMatchPositionally fl tl) := by
  unfold levelsMatchPositionally
  infer_instance

example : TopicMatchesFilter "sensors/temperature" "sensors/+" = true := by decide

example : TopicMatchesFilter "sensors/a/b" "sensors/+" = false := by decide

example : TopicMatchesFilter "sensors/a/b" "sensors/#" = true := by decide

example : TopicMatchesFilter "a" "a/#" = true := by decide

example : TopicMatchesFilter "x/y" "a#" = true := by decide

theorem matchLevels_iff : ∀ (fl tl : List String), fl.length ≤ tl.length →
    (matchLevels fl tl = true ↔ levelsMatchPositionally fl tl)
  | [], tl, _ => by
    simp [matchLevels, levelsMatchPositionally]
  | f :: fs, [], h => by
    simp at h
  | f :: fs, t :: ts, h => by
    have ih := matchLevels_iff fs ts (by simpa using h)
    simp only [matchLevels, Bool.and_eq_true, Bool.or_eq_true, beq_iff_eq, ih]
    constructor
    · rintro ⟨hf, hrest⟩ i hi
      cases i with
      | zero => simpa using hf
      | succ n =>
        have := hrest n (by simpa using hi)
        simpa using this
    · intro hall
      constructor
      · have := hall 0 (by simp)
        simpa using this
      · intro i hi
        have := hall (i + 1) (by simpa using hi)
        simpa using this

/-- C1: `TopicMatchesFilter T F` holds iff: when the filter ends in the
multi-level wildcard `'#'`, every filter level before the wildcard matches
the corresponding topic level positionally (exactly or via `"+"`) and the
topic has at least `len(levels F) - 1` levels; and otherwise the level
counts are equal and each level matches positionally under the same rule. -/
theorem topicMatchesFilter_spec (T F : String) :
    TopicMatchesFilter T F = true ↔
      (if hasHashSuffix F then
        (splitLevels F).length - 1 ≤ (splitLevels T).length ∧
          levelsMatchPositionally ((splitLevels F).dropLast) (splitLevels T)
      else
        (splitLevels T).length = (splitLevels F).length ∧
          levelsMatchPositionally (splitLevels F) (splitLevels T)) := by
  unfold TopicMatchesFilter
  by_cases hF : hasHashSuffix F
  · simp only [hF, if_true]
    by_cases hlen : (splitLevels T).length < ((splitLevels F).dropLast).length
    · have hlen' : ¬ ((splitLevels F).length - 1 ≤ (splitLevels T).length) := by
        rw [List.length_dropLast] at hlen
        omega
      simp [hlen, hlen']
    · push_neg at hlen
      have hlen' : (splitLevels F).length - 1 ≤ (splitLevels T).length := by
        rw [List.length_dropLast] at hlen
        omega
      rw [if_neg (by omega)]
      rw [matchLevels_iff _ _ hlen]
      simp [hlen']
  · simp only [hF, if_false, Bool.false_eq_true]
    by_cases hlen : (splitLevels T).length = (splitLevels F).length
    · rw [if_neg (by omega)]
      rw [matchLevels_iff _ _ (by omega)]
      simp [hlen]
    · simp [hlen]

/-- Witness for C1: instantiating the characterization at
`T = "sensors/a/b"`, `F = "sensors/#"` yields a concrete match. -/
theorem topicMatchesFilter_spec_witness :
    TopicMatchesFilter "sensors/a/b" "sensors/#" = true :=
  (topicMatchesFilter_spec "sensors/a/b" "sensors/#").mpr (by decide)

/-- C10: the multi-level-wildcard case is decided by the final character
of the filter string, not by `"#"` being a standalone final level: the
syntactically invalid filter `"a#"` is a single level `"a#"`, its entire
final level is stripped before positional matching, and it therefore
matches every topic. -/
theorem filter_aHash_matches_every_topic :
    splitLevels "a#" = ["a#"] ∧ ∀ T, TopicMatchesFilter T "a#" = true := by
  refine ⟨by decide, fun T => ?_⟩
  have h1 : hasHashSuffix "a#" = true := by decide
  have h2 : (splitLevels "a#").dropLast = [] := by decide
  unfold TopicMatchesFilter
  simp [h1, h2, matchLevels]

/-! ## Webhook dispatch engine (internal/api/api.go, sendWebhookNotificationToURL) -/

/-- Outcome of one `client.Do(req)` call: a transport error (`err != nil`)
or an HTTP status code. -/
inductive HTTPResult where
  | transportError
  | status (code : Nat)
deriving DecidableEq

/-- The success test of the retry loop:
`err == nil && resp.StatusCode >= 200 && resp.StatusCode < 300`. -/
def isSuccessResponse : HTTPResult → Bool
  | .transportError => false
  | .status c => 200 ≤ c && c < 300

/-- The body of the retry loop `for i := 0; i <= retryCount; i++` of
`sendWebhookNotificationToURL`, starting at attempt `i` with `fuel`
further iterations allowed (`fuel = retryCount - i`). `call a` is the
outcome of the HTTP call of attempt `a`. Returns
(number of calls issued, success?, sleeps performed between attempts):
each retry is preceded by `time.Sleep(retryDelay)`. -/
def sendWebhookLoopAux (call : Nat → HTTPResult) (retryDelay : Nat) (i : Nat) :
    Nat → Nat × Bool × List Nat
  | 0 => (1, isSuccessResponse (call i), [])
  | fuel + 1 =>
    if isSuccessResponse (call i) then (1, true, [])
    else
      let r := sendWebhookLoopAux call retryDelay (i + 1) fuel
      (r.1 + 1, r.2.1, retryDelay :: r.2.2)

/-- Go `Server.sendWebhookNotificationToURL` delivery loop: at most
`retryCount + 1` attempts, first attempt has index `0`. On exhaustion the
function only logs the final failure and returns — there is no error
return value, which the `Bool` outcome reflects. -/
def sendWebhookNotificationToURL (call : Nat → HTTPResult)
    (retryCount retryDelay : Nat) : Nat × Bool × List Nat :=
  sendWebhookLoopAux call retryDelay 0 retryCount

theorem sendWebhookLoopAux_calls_pos (call : Nat → HTTPResult) (d : Nat) :
    ∀ (fuel i : Nat), 1 ≤ (sendWebhookLoopAux call d i fuel).1 := by
  intro fuel
  induction fuel with
  | zero => intro i; simp [sendWebhookLoopAux]
  | succ n ih =>
    intro i
    by_cases h : isSuccessResponse (call i) = true
    · simp [sendWebhookLoopAux, h]
    · simp only [sendWebhookLoopAux, h, if_false, Bool.false_eq_true]
      omega

theorem sendWebhookLoopAux_calls_le (call : Nat → HTTPResult) (d : Nat) :
    ∀ (fuel i : Nat), (sendWebhookLoopAux call d i fuel).1 ≤ fuel + 1 := by
  intro fuel
  induction fuel with
  | zero => intro i; simp [sendWebhookLoopAux]
  | succ n ih =>
    intro i
    by_cases h : isSuccessResponse (call i) = true
    · simp [sendWebhookLoopAux, h]
    · simp only [sendWebhookLoopAux, h, if_false, Bool.false_eq_true]
      have := ih (i + 1)
      omega

theorem sendWebhookLoopAux_sleeps (call : Nat → HTTPResult) (d : Nat) :
    ∀ (fuel i : Nat), (sendWebhookLoopAux call d i fuel).2.2 =
      List.replicate ((sendWebhookLoopAux call d i fuel).1 - 1) d := by
  intro fuel
  induction fuel with
  | zero => intro i; simp [sendWebhookLoopAux]
  | succ n ih =>
    intro i
    by_cases h : isSuccessResponse (call i) = true
    · simp [sendWebhookLoopAux, h]
    · simp only [sendWebhookLoopAux, h, if_false, Bool.false_eq_true]
      have h1 := sendWebhookLoopAux_calls_pos call d n (i + 1)
      have h2 := ih (i + 1)
      simp only [h2]
      have : (sendWebhookLoopAux call d (i + 1) n).1 + 1 - 1 =
          ((sendWebhookLoopAux call d (i + 1) n).1 - 1) + 1 := by omega
      rw [this, List.replicate_succ]

theorem sendWebhookLoopAux_success (call : Nat → HTTPResult) (d : Nat) :
    ∀ (fuel i : Nat), (sendWebhookLoopAux call d i fuel).2.1 = true →
      isSuccessResponse (call (i + ((sendWebhookLoopAux call d i fuel).1 - 1))) = true ∧
      ∀ j < (sendWebhookLoopAux call d i fuel).1 - 1,
        isSuccessResponse (call (i + j)) = false := by
  intro fuel
  induction fuel with
  | zero =>
    intro i hs
    simp only [sendWebhookLoopAux] at hs ⊢
    refine ⟨by simpa using hs, ?_⟩
    intro j hj
    omega
  | succ n ih =>
    intro i hs
    by_cases h : isSuccessResponse (call i) = true
    · simp only [sendWebhookLoopAux, h, if_true]
      refine ⟨by simpa using h, ?_⟩
      intro j hj
      simp at hj
    · simp only [sendWebhookLoopAux, h, if_false, Bool.false_eq_true] at hs ⊢
      have h1 := sendWebhookLoopAux_calls_pos call d n (i + 1)
      obtain ⟨hsucc, hprev⟩ := ih (i + 1) hs
      constructor
      · have : i + ((sendWebhookLoopAux call d (i + 1) n).1 + 1 - 1) =
            (i + 1) + ((sendWebhookLoopAux call d (i + 1) n).1 - 1) := by omega
        rw [this]
        exact hsucc
      · intro j hj
        cases j with
        | zero => simpa using h
        | succ k =>
          have : i + (k + 1) = (i + 1) + k := by omega
          rw [this]
          exact hprev k (by omega)

theorem sendWebhookLoopAux_failure (call : Nat → HTTPResult) (d : Nat) :
    ∀ (fuel i : Nat), (sendWebhookLoopAux call d i fuel).2.1 = false →
      (sendWebhookLoopAux call d i fuel).1 = fuel + 1 ∧
      ∀ j ≤ fuel, isSuccessResponse (call (i + j)) = false := by
  intro fuel
  induction fuel with
  | zero =>
    intro i hs
    simp only [sendWebhookLoopAux] at hs
    refine ⟨by simp [sendWebhookLoopAux], ?_⟩
    intro j hj
    interval_cases j
    simpa using hs
  | succ n ih =>
    intro i hs
    by_cases h : isSuccessResponse (call i) = true
    · simp [sendWebhookLoopAux, h] at hs
    · simp only [sendWebhookLoopAux, h, if_false, Bool.false_eq_true] at hs ⊢
      obtain ⟨hlen, hprev⟩ := ih (i + 1) hs
      refine ⟨by omega, ?_⟩
      intro j hj
      cases j with
      | zero => simpa using h
      | succ k =>
        have : i + (k + 1) = (i + 1) + k := by omega
        rw [this]
        exact hprev k (by omega)

/-- Scenario D target: failure status on the first two calls, success on
the third. -/
def scenarioDTarget : Nat → HTTPResult :=
  fun i => if i < 2 then HTTPResult.status 500 else HTTPResult.status 200

/-- C2: for retry_count `r` and retry_delay `d > 0`, the dispatch engine
issues at most `r + 1` HTTP calls, sleeps exactly `d` seconds between
consecutive attempts, stops at the first 2xx response (every earlier call
failed), and on exhaustion has issued exactly `r + 1` failing calls and
terminates without an error value; for scenario D (`retry_count = 3`,
`retry_delay = 1`, failures on the first two calls) exactly 3 calls are
issued, spaced by two 1-second delays, and success is recorded. -/
theorem sendWebhookNotificationToURL_retry_spec (call : Nat → HTTPResult)
    (r d : Nat) (hd : 0 < d) :
    ((sendWebhookNotificationToURL call r d).1 ≤ r + 1) ∧
    ((sendWebhookNotificationToURL call r d).2.2 =
      List.replicate ((sendWebhookNotificationToURL call r d).1 - 1) d) ∧
    ((sendWebhookNotificationToURL call r d).2.1 = true →
      isSuccessResponse (call ((sendWebhookNotificationToURL call r d).1 - 1)) = true ∧
      ∀ j < (sendWebhookNotificationToURL call r d).1 - 1,
        isSuccessResponse (call j) = false) ∧
    ((sendWebhookNotificationToURL call r d).2.1 = false →
      (sendWebhookNotificationToURL call r d).1 = r + 1 ∧
      ∀ j ≤ r, isSuccessResponse (call j) = false) ∧
    sendWebhookNotificationToURL scenarioDTarget 3 1 = (3, true, [1, 1]) := by
  refine ⟨sendWebhookLoopAux_calls_le call d r 0,
    sendWebhookLoopAux_sleeps call d r 0, ?_, ?_, by decide⟩
  · intro hs
    have h := sendWebhookLoopAux_success call d r 0 hs
    simpa using h
  · intro hs
    have h := sendWebhookLoopAux_failure call d r 0 hs
    simpa using h

/-- Witness for C2: scenario D evaluated concretely through the theorem. -/
theorem sendWebhookNotificationToURL_retry_spec_witness :
    sendWebhookNotificationToURL scenarioDTarget 3 1 = (3, true, [1, 1]) :=
  (sendWebhookNotificationToURL_retry_spec scenarioDTarget 3 1 (by decide)).2.2.2.2

/-! ## Connection supervisor (internal/mqtt/mqtt.go, Manager.GetClient)

`GetClient` for a fixed broker name, as a small-step program so that
interleavings of two concurrent callers can be examined. Each step is one
critical section of the Go code: the map read under `mu.RLock`, the
`createClient` call (performed while holding no lock), and the map write
under `mu.Lock`. Clients are identified by the order of their creation. -/

/-- Program counter of one `GetClient` caller. -/
inductive GCPhase where
  | checkMap
  | createClient
  | storeClient
  | done
deriving DecidableEq

/-- One caller of `GetClient`: its phase and the client it will return. -/
structure GCCaller where
  phase : GCPhase
  ret : Option Nat
deriving DecidableEq

/-- Shared state: the `clients[brokerName]` map entry, the number of
`createClient` calls performed so far, and two concurrent callers. -/
structure GCState where
  entry : Option Nat
  creations : Nat
  c1 : GCCaller
  c2 : GCCaller
deriving DecidableEq

/-- Advance one caller of `GetClient` by one atomic step:
`checkMap` is the read under `RLock` (return the existing client, else fall
through to creation), `createClient` builds a fresh client, `storeClient`
is the write under `Lock`. There is no re-check of the map between
`createClient` and `storeClient`. -/
def gcStepCaller (entry : Option Nat) (creations : Nat) (c : GCCaller) :
    Option Nat × Nat × GCCaller :=
  match c.phase with
  | .checkMap =>
    match entry with
    | some v => (entry, creations, ⟨.done, some v⟩)
    | none => (entry, creations, ⟨.createClient, none⟩)
  | .createClient => (entry, creations + 1, ⟨.storeClient, some creations⟩)
  | .storeClient => (c.ret, creations, ⟨.done, c.ret⟩)
  | .done => (entry, creations, c)

/-- Step the caller selected by the schedule entry (`true` = first). -/
def gcStep (s : GCState) (tid : Bool) : GCState :=
  if tid then
    let r := gcStepCaller s.entry s.creations s.c1
    ⟨r.1, r.2.1, r.2.2, s.c2⟩
  else
    let r := gcStepCaller s.entry s.creations s.c2
    ⟨r.1, r.2.1, s.c1, r.2.2⟩

/-- Run two concurrent `GetClient` callers under a given interleaving. -/
def gcRun (s : GCState) : List Bool → GCState
  | [] => s
  | tid :: rest => gcRun (gcStep s tid) rest

/-- Initial state with a given pre-existing map entry. -/
def gcInit (entry : Option Nat) : GCState :=
  ⟨entry, 0, ⟨.checkMap, none⟩, ⟨.checkMap, none⟩⟩

/-- Counterexample for C9: under the interleaving where both callers pass
the `RLock` map check before either stores, `createClient` runs twice for
the same broker name — `GetClient` does not re-check the map under the
write lock. -/
theorem getClient_duplicate_creation_counterexample :
    (gcRun (gcInit none) [true, false, true, true, false, false]).creations = 2 := by
  decide

/-- Invariant of a state whose map entry is a settled client `c`: no
creation has happened and every caller either has not started or has
returned `c`. -/
def gcStable (c : Nat) (s : GCState) : Prop :=
  s.entry = some c ∧ s.creations = 0 ∧
  (s.c1 = ⟨.checkMap, none⟩ ∨ s.c1 = ⟨.done, some c⟩) ∧
  (s.c2 = ⟨.checkMap, none⟩ ∨ s.c2 = ⟨.done, some c⟩)

theorem gcStep_stable (c : Nat) (s : GCState) (tid : Bool)
    (h : gcStable c s) : gcStable c (gcStep s tid) := by
  obtain ⟨he, hc, h1, h2⟩ := h
  rcases h1 with h1 | h1 <;> rcases h2 with h2 | h2 <;> cases tid <;>
    simp [gcStep, gcStepCaller, gcStable, he, hc, h1, h2]

theorem gcRun_stable (c : Nat) :
    ∀ (sched : List Bool) (s : GCState), gcStable c s → gcStable c (gcRun s sched)
  | [], _, h => h
  | tid :: rest, s, h => gcRun_stable c rest (gcStep s tid) (gcStep_stable c s tid h)

/-- C9 amended: a session is created lazily on first access and, once a
session for the name exists in the map, no interleaving of two callers
creates another one (both return the existing client); but because
`GetClient` checks the map only under the read lock and does not re-check
under the write lock, there is an interleaving of two concurrent callers
that creates two sessions for the same name. -/
theorem getClient_lazy_singleton_amended :
    (∀ (c : Nat) (sched : List Bool),
      (gcRun (gcInit (some c)) sched).creations = 0 ∧
      (gcRun (gcInit (some c)) sched).entry = some c) ∧
    ((gcRun (gcInit none) [true, true, true]).creations = 1 ∧
      (gcRun (gcInit none) [true, true, true]).entry = some 0 ∧
      (gcRun (gcInit none) [true, true, true]).c1 = ⟨.done, some 0⟩) ∧
    (∃ sched : List Bool, (gcRun (gcInit none) sched).creations = 2) := by
  refine ⟨?_, by decide, ⟨[true, false, true, true, false, false], by decide⟩⟩
  intro c sched
  have h := gcRun_stable c sched (gcInit (some c))
    (by simp [gcStable, gcInit])
  exact ⟨h.2.1, h.1⟩

/-! ## Message outbox store (internal/database/sqlite.go, mongodb.go) -/

/-- A payload value as held in a storage column: Go `string` or `[]byte`. -/
inductive StoredPayload where
  | text (s : String)
  | bin (b : List Nat)
deriving DecidableEq

/-- A Go `interface{}` payload, split by the type switches of
`Client.Publish` and `StoreMessage`: a string, a byte slice, a numeric or
boolean primitive carrying its `fmt` rendering, or any other structured
value carrying its `json.Marshal` result (`none` = marshal error). -/
inductive PayloadValue where
  | str (s : String)
  | bytes (b : List Nat)
  | prim (rendered : String)
  | structured (encoded : Option (List Nat))
deriving DecidableEq

/-- Go `database.Message` as passed into `StoreMessage`. The Go zero values
(empty `ID`, zero `time.Time`) are modelled by `""` and `0`. -/
structure Message where
  id : String
  topic : String
  payload : PayloadValue
  qos : Nat
  retained : Bool
  timestamp : Nat
  confirmed : Bool
deriving DecidableEq

/-- One persisted outbox row (payload already in column form). -/
structure StoredRow where
  id : String
  topic : String
  payload : StoredPayload
  qos : Nat
  retained : Bool
  timestamp : Nat
  confirmed : Bool
deriving DecidableEq

/-- The error values surfaced by the storage layer:
`ErrConnectionFailed`, `ErrMessageNotFound`, a payload marshal failure,
and an `INSERT` / `ExecContext` failure. -/
inductive DbError where
  | connectionFailed
  | messageNotFound
  | marshalFailed
  | insertFailed
deriving DecidableEq

/-- The payload switch of `StoreMessage`: strings and byte slices are
stored as-is, everything else goes through `json.Marshal` (which cannot
fail for primitives; their encoding is modelled as the bytes of their
rendering). -/
def storeConvertPayload : PayloadValue → Option StoredPayload
  | .str s => some (.text s)
  | .bytes b => some (.bin b)
  | .prim r => some (.bin (r.data.map Char.toNat))
  | .structured none => none
  | .structured (some bs) => some (.bin bs)

/-- Go `fmt.Sprintf("%d", time.Now().UnixNano())`: the id assigned to a
record stored without one, from the store-time clock value. -/
def natIdString (n : Nat) : String := toString n

/-- Go `SQLiteDatabase.StoreMessage`: assign the id from the clock when the
input has none, set the timestamp when it is zero, convert the payload,
and insert; the `INSERT` fails on a duplicate primary key. Returns the
assigned id together with the new table contents. -/
def sqliteStoreMessage (conn : Bool) (db : List StoredRow) (msg : Message)
    (now : Nat) : Except DbError (String × List StoredRow) :=
  if !conn then .error .connectionFailed
  else
    let id' := if msg.id = "" then natIdString now else msg.id
    let ts' := if msg.timestamp = 0 then now else msg.timestamp
    match storeConvertPayload msg.payload with
    | none => .error .marshalFailed
    | some p =>
      if db.any (fun r => r.id == id') then .error .insertFailed
      else .ok (id', db ++ [⟨id', msg.topic, p, msg.qos, msg.retained, ts', msg.confirmed⟩])

/-- Go `SQLiteDatabase.GetMessageByID`: `SELECT ... WHERE id = ?`;
`sql.ErrNoRows` becomes `ErrMessageNotFound`. -/
def sqliteGetMessageByID (conn : Bool) (db : List StoredRow) (id : String) :
    Except DbError StoredRow :=
  if !conn then .error .connectionFailed
  else
    match db.find? (fun r => r.id == id) with
    | none => .error .messageNotFound
    | some r => .ok r

/-- SQL `UPDATE ... WHERE p`: apply `f` to every matching row and count the
affected rows. -/
def updateWhere (p : StoredRow → Bool) (f : StoredRow → StoredRow) :
    List StoredRow → Nat × List StoredRow
  | [] => (0, [])
  | r :: rs =>
    let t := updateWhere p f rs
    if p r then (t.1 + 1, f r :: t.2) else (t.1, r :: t.2)

/-- SQL `DELETE ... WHERE p`: drop every matching row and count the affected
rows. -/
def deleteWhere (p : StoredRow → Bool) : List StoredRow → Nat × List StoredRow
  | [] => (0, [])
  | r :: rs =>
    let t := deleteWhere p rs
    if p r then (t.1 + 1, t.2) else (t.1, r :: t.2)

/-- Go `SQLiteDatabase.ConfirmMessage`:
`UPDATE messages SET confirmed = 1 WHERE id = ?`, then `ErrMessageNotFound`
when no row was affected. -/
def sqliteConfirmMessage (conn : Bool) (db : List StoredRow) (id : String) :
    Except DbError (List StoredRow) :=
  if !conn then .error .connectionFailed
  else
    let t := updateWhere (fun r => r.id == id) (fun r => { r with confirmed := true }) db
    if t.1 = 0 then .error .messageNotFound else .ok t.2

/-- Go `SQLiteDatabase.DeleteMessage`: `DELETE FROM messages WHERE id = ?`,
then `ErrMessageNotFound` when no row was affected. -/
def sqliteDeleteMessage (conn : Bool) (db : List StoredRow) (id : String) :
    Except DbError (List StoredRow) :=
  if !conn then .error .connectionFailed
  else
    let t := deleteWhere (fun r => r.id == id) db
    if t.1 = 0 then .error .messageNotFound else .ok t.2

/-- Go `SQLiteDatabase.DeleteConfirmedMessages`:
`DELETE FROM messages WHERE confirmed = 1`, returning the affected count. -/
def sqliteDeleteConfirmedMessages (conn : Bool) (db : List StoredRow) :
    Except DbError (Nat × List StoredRow) :=
  if !conn then .error .connectionFailed
  else .ok (deleteWhere (fun r => r.confirmed) db)

/-- Mongo `UpdateOne`: apply `f` to the first matching document only;
`none` when nothing matched (`MatchedCount == 0`). -/
def updateFirstWhere (p : StoredRow → Bool) (f : StoredRow → StoredRow) :
    List StoredRow → Option (List StoredRow)
  | [] => none
  | r :: rs =>
    if p r then some (f r :: rs)
    else (updateFirstWhere p f rs).map (r :: ·)

/-- Mongo `DeleteOne`: drop the first matching document only; `none` when
nothing matched (`DeletedCount == 0`). -/
def deleteFirstWhere (p : StoredRow → Bool) :
    List StoredRow → Option (List StoredRow)
  | [] => none
  | r :: rs =>
    if p r then some rs
    else (deleteFirstWhere p rs).map (r :: ·)

/-- Go `MongoDBDatabase.ConfirmMessage`: `UpdateOne({_id: id},
{$set: {confirmed: true}})`, then `ErrMessageNotFound` when
`MatchedCount == 0`. -/
def mongoConfirmMessage (conn : Bool) (db : List StoredRow) (id : String) :
    Except DbError (List StoredRow) :=
  if !conn then .error .connectionFailed
  else
    match updateFirstWhere (fun r => r.id == id)
        (fun r => { r with confirmed := true }) db with
    | none => .error .messageNotFound
    | some db' => .ok db'

/-- Go `MongoDBDatabase.DeleteMessage`: `DeleteOne({_id: id})`, then
`ErrMessageNotFound` when `DeletedCount == 0`. -/
def mongoDeleteMessage (conn : Bool) (db : List StoredRow) (id : String) :
    Except DbError (List StoredRow) :=
  if !conn then .error .connectionFailed
  else
    match deleteFirstWhere (fun r => r.id == id) db with
    | none => .error .messageNotFound
    | some db' => .ok db'

/-- Go `MongoDBDatabase.DeleteConfirmedMessages`:
`DeleteMany({confirmed: true})`, returning the deleted count. -/
def mongoDeleteConfirmedMessages (conn : Bool) (db : List StoredRow) :
    Except DbError (Nat × List StoredRow) :=
  if !conn then .error .connectionFailed
  else .ok (deleteWhere (fun r => r.confirmed) db)

/-! ## Connection supervisor publish path (internal/mqtt/mqtt.go, Client.Publish) -/

/-- The payload switch of `Client.Publish`: strings and byte slices pass
through, primitives are rendered with `fmt.Sprintf("%v", p)`, any other
structured value is JSON-encoded (which may fail). -/
def transportConvertPayload : PayloadValue → Option StoredPayload
  | .str s => some (.text s)
  | .bytes b => some (.bin b)
  | .prim r => some (.text r)
  | .structured none => none
  | .structured (some bs) => some (.bin bs)

/-- The errors `Client.Publish` can return: not connected, payload
marshal failure, transport publish failure. -/
inductive PublishError where
  | notConnected
  | marshalFailed
  | publishFailed
deriving DecidableEq

/-- Go `Client.Publish(topic, qos, retained, payload)`: fail when not
connected; convert the payload; fail when the transport send fails; on
transport success, when a database is attached store an unconfirmed
`database.Message` built from the original payload with the current time —
a store failure is logged but the publish still returns success. Returns
the resulting outbox table. `connected` is `c.IsConnected()`, `sendOk`
models the transport token, `hasDB` is `c.manager != nil && c.manager.db
!= nil`, `dbConn` models the backend connection. -/
def clientPublish (connected sendOk hasDB dbConn : Bool)
    (db : List StoredRow) (topic : String) (qos : Nat) (retained : Bool)
    (payload : PayloadValue) (now : Nat) : Except PublishError (List StoredRow) :=
  if !connected then .error .notConnected
  else
    match transportConvertPayload payload with
    | none => .error .marshalFailed
    | some _ =>
      if !sendOk then .error .publishFailed
      else if hasDB then
        match sqliteStoreMessage dbConn db ⟨"", topic, payload, qos, retained, now, false⟩ now with
        | .ok (_, db') => .ok db'
        | .error _ => .ok db
      else .ok db

/-- C4: Publish errors when the session is not connected; when the
transport send succeeds it never returns an error, whatever happens to
the outbox append (a persist failure is only logged); and when the append
does succeed, the appended record is unconfirmed and carries the
published topic, qos and retained flag. -/
theorem clientPublish_spec (connected sendOk hasDB dbConn : Bool)
    (db : List StoredRow) (topic : String) (qos : Nat) (retained : Bool)
    (payload : PayloadValue) (now : Nat) :
    (connected = false →
      clientPublish connected sendOk hasDB dbConn db topic qos retained payload now =
        .error .notConnected) ∧
    (connected = true → sendOk = true → transportConvertPayload payload ≠ none →
      ∃ db', clientPublish connected sendOk hasDB dbConn db topic qos retained payload now =
        .ok db') ∧
    (connected = true → sendOk = true → hasDB = true → dbConn = true →
      ∀ p, storeConvertPayload payload = some p →
      (∀ r ∈ db, r.id ≠ natIdString now) →
      clientPublish connected sendOk hasDB dbConn db topic qos retained payload now =
        .ok (db ++ [⟨natIdString now, topic, p, qos, retained, now, false⟩])) := by
  refine ⟨?_, ?_, ?_⟩
  · intro hc
    subst hc
    simp [clientPublish]
  · intro hc hs hp
    subst hc
    subst hs
    rcases htp : transportConvertPayload payload with _ | tp
    · exact absurd htp hp
    · simp only [clientPublish, Bool.not_true, Bool.false_eq_true, if_false, htp]
      by_cases hdb : hasDB
      · simp only [hdb, if_true]
        rcases hst : sqliteStoreMessage dbConn db
            ⟨"", topic, payload, qos, retained, now, false⟩ now with e | v
        · exact ⟨db, rfl⟩
        · exact ⟨v.2, rfl⟩
      · simp only [hdb, if_false]
        exact ⟨db, rfl⟩
  · intro hc hs hdb hdbc p hp hfresh
    subst hc; subst hs; subst hdb; subst hdbc
    have htp : transportConvertPayload payload ≠ none := by
      cases payload with
      | str s => simp [transportConvertPayload]
      | bytes b => simp [transportConvertPayload]
      | prim r => simp [transportConvertPayload]
      | structured o => cases o <;> simp_all [transportConvertPayload, storeConvertPayload]
    rcases htp' : transportConvertPayload payload with _ | tp
    · exact absurd htp' htp
    · have hany : db.any (fun r => r.id == natIdString now) = false := by
        rw [List.any_eq_false]
        intro r hr
        simpa using hfresh r hr
      simp only [clientPublish, Bool.not_true, Bool.false_eq_true, if_false, htp',
        if_true, sqliteStoreMessage, hp, hany]
      simp

/-- Witness for C4: a concrete connected publish with a working backend
appends the unconfirmed record. -/
theorem clientPublish_spec_witness :
    clientPublish true true true true [] "t" 1 false (.str "v1") 7 =
      .ok [⟨natIdString 7, "t", .text "v1", 1, false, 7, false⟩] :=
  (clientPublish_spec true true true true [] "t" 1 false (.str "v1") 7).2.2
    rfl rfl rfl rfl (.text "v1") rfl (by simp)

/-- C5: storing an unconfirmed record assigns an id (from the clock when
the input has none) and a timestamp when absent, and fetching by the
assigned id returns a row with the same topic, qos and retained flag,
still unconfirmed, with a populated (non-zero) timestamp. -/
theorem sqliteStore_get_roundtrip (db : List StoredRow) (msg : Message)
    (now : Nat) (hconf : msg.confirmed = false) (hnow : 0 < now)
    (assigned : String) (db' : List StoredRow)
    (hstore : sqliteStoreMessage true db msg now = .ok (assigned, db')) :
    (msg.id = "" → assigned = natIdString now) ∧
    ∃ r, sqliteGetMessageByID true db' assigned = .ok r ∧
      r.topic = msg.topic ∧ r.qos = msg.qos ∧ r.retained = msg.retained ∧
      r.confirmed = false ∧ r.timestamp ≠ 0 ∧
      (msg.timestamp = 0 → r.timestamp = now) := by
  simp only [sqliteStoreMessage, Bool.not_true, Bool.false_eq_true, if_false] at hstore
  rcases hp : storeConvertPayload msg.payload with _ | p
  · simp only [hp] at hstore
    exact absurd hstore (by simp)
  · simp only [hp] at hstore
    by_cases hany : db.any
        (fun r => r.id == if msg.id = "" then natIdString now else msg.id) = true
    · rw [if_pos hany] at hstore
      simp at hstore
    · rw [if_neg hany] at hstore
      simp only [Except.ok.injEq, Prod.mk.injEq] at hstore
      obtain ⟨hid, hdb'⟩ := hstore
      constructor
      · intro hempty
        rw [← hid, hempty, if_pos rfl]
      · refine ⟨⟨assigned, msg.topic, p, msg.qos, msg.retained,
          (if msg.timestamp = 0 then now else msg.timestamp), msg.confirmed⟩, ?_, by rfl,
          by rfl, by rfl, by rw [hconf], ?_, ?_⟩
        · simp only [sqliteGetMessageByID, Bool.not_true, Bool.false_eq_true, if_false]
          rw [← hdb', List.find?_append]
          have hnone : db.find?
              (fun r => r.id == assigned) = none := by
            rw [List.find?_eq_none]
            intro r hr
            rw [← hid]
            have hall : ∀ x ∈ db,
                ¬ x.id = (if msg.id = "" then natIdString now else msg.id) := by
              simpa using hany
            simpa using hall r hr
          rw [hnone]
          simp [← hid]
        · by_cases ht : msg.timestamp = 0
          · simp only [ht, if_pos]
            omega
          · simp only [ht, if_neg, ite_false]
            exact ht
        · intro ht
          simp [ht]

/-- Witness for C5: round trip at a concrete record without id/timestamp. -/
theorem sqliteStore_get_roundtrip_witness :
    ∃ r, sqliteGetMessageByID true
        [⟨"7", "t", .text "v1", 1, false, 7, false⟩] "7" = .ok r ∧
      r.topic = "t" ∧ r.qos = 1 ∧ r.retained = false ∧
      r.confirmed = false ∧ r.timestamp ≠ 0 ∧ ((0 : Nat) = 0 → r.timestamp = 7) :=
  (sqliteStore_get_roundtrip [] ⟨"", "t", .str "v1", 1, false, 0, false⟩ 7 rfl
    (by decide) "7" [⟨"7", "t", .text "v1", 1, false, 7, false⟩] rfl).2

theorem updateWhere_fst_eq_zero (p : StoredRow → Bool) (f : StoredRow → StoredRow) :
    ∀ db : List StoredRow, (updateWhere p f db).1 = 0 ↔ ∀ r ∈ db, p r = false
  | [] => by simp [updateWhere]
  | r :: rs => by
    by_cases h : p r = true
    · simp [updateWhere, h]
    · have hr : p r = false := by simpa using h
      simp [updateWhere, hr, updateWhere_fst_eq_zero p f rs]

theorem updateWhere_self (p : StoredRow → Bool) (f : StoredRow → StoredRow) :
    ∀ db : List StoredRow, (∀ r ∈ db, p r = true → f r = r) →
      (updateWhere p f db).2 = db
  | [], _ => rfl
  | r :: rs, h => by
    have ih := updateWhere_self p f rs (fun x hx => h x (List.mem_cons_of_mem r hx))
    by_cases hr : p r = true
    · simp [updateWhere, hr, ih, h r (List.mem_cons_self r rs) hr]
    · simp [updateWhere, hr, ih]

theorem updateWhere_idem (p : StoredRow → Bool) (f : StoredRow → StoredRow)
    (hp : ∀ r, p (f r) = p r) (hf : ∀ r, f (f r) = f r) :
    ∀ db : List StoredRow,
      updateWhere p f (updateWhere p f db).2 = ((updateWhere p f db).1, (updateWhere p f db).2)
  | [] => rfl
  | r :: rs => by
    have ih := updateWhere_idem p f hp hf rs
    by_cases hr : p r = true
    · simp only [updateWhere, hr, if_true]
      simp only [updateWhere, ih, hp r, hr, if_true, hf r]
    · simp only [updateWhere, hr, if_false, Bool.false_eq_true]
      simp only [updateWhere, ih, hr, if_false, Bool.false_eq_true]

theorem deleteWhere_fst_eq_zero (p : StoredRow → Bool) :
    ∀ db : List StoredRow, (deleteWhere p db).1 = 0 ↔ ∀ r ∈ db, p r = false
  | [] => by simp [deleteWhere]
  | r :: rs => by
    by_cases h : p r = true
    · simp [deleteWhere, h]
    · have hr : p r = false := by simpa using h
      simp [deleteWhere, hr, deleteWhere_fst_eq_zero p rs]

theorem updateFirstWhere_eq_none (p : StoredRow → Bool) (f : StoredRow → StoredRow) :
    ∀ db : List StoredRow, updateFirstWhere p f db = none ↔ ∀ r ∈ db, p r = false
  | [] => by simp [updateFirstWhere]
  | r :: rs => by
    by_cases h : p r = true
    · simp [updateFirstWhere, h]
    · have hr : p r = false := by simpa using h
      simp [updateFirstWhere, hr, Option.map_eq_none,
        updateFirstWhere_eq_none p f rs]

theorem updateFirstWhere_self (p : StoredRow → Bool) (f : StoredRow → StoredRow) :
    ∀ db : List StoredRow, (∀ r ∈ db, p r = true → f r = r) →
      (∃ r ∈ db, p r = true) → updateFirstWhere p f db = some db
  | [], _, hex => by simp at hex
  | r :: rs, h, hex => by
    by_cases hr : p r = true
    · simp [updateFirstWhere, hr, h r (List.mem_cons_self r rs) hr]
    · have ih := updateFirstWhere_self p f rs
        (fun x hx => h x (List.mem_cons_of_mem r hx))
        (by
          rcases hex with ⟨x, hx, hpx⟩
          rcases List.mem_cons.mp hx with hx0 | hx1
          · exact absurd (hx0 ▸ hpx) hr
          · exact ⟨x, hx1, hpx⟩)
      simp [updateFirstWhere, hr, ih]

theorem updateFirstWhere_idem (p : StoredRow → Bool) (f : StoredRow → StoredRow)
    (hp : ∀ r, p (f r) = p r) (hf : ∀ r, f (f r) = f r) :
    ∀ (db db' : List StoredRow), updateFirstWhere p f db = some db' →
      updateFirstWhere p f db' = some db'
  | [], _, h => by simp [updateFirstWhere] at h
  | r :: rs, db', h => by
    by_cases hr : p r = true
    · simp only [updateFirstWhere, hr, if_true, Option.some.injEq] at h
      subst h
      simp [updateFirstWhere, hp r, hr, hf r]
    · rcases hm : updateFirstWhere p f rs with _ | rs'
      · simp [updateFirstWhere, hr, hm] at h
      · simp only [updateFirstWhere, hr, if_false, Bool.false_eq_true, hm,
          Option.map_some', Option.some.injEq] at h
        subst h
        have ih := updateFirstWhere_idem p f hp hf rs rs' hm
        simp [updateFirstWhere, hr, ih]

theorem deleteFirstWhere_eq_none (p : StoredRow → Bool) :
    ∀ db : List StoredRow, deleteFirstWhere p db = none ↔ ∀ r ∈ db, p r = false
  | [] => by simp [deleteFirstWhere]
  | r :: rs => by
    by_cases h : p r = true
    · simp [deleteFirstWhere, h]
    · have hr : p r = false := by simpa using h
      simp [deleteFirstWhere, hr, Option.map_eq_none, deleteFirstWhere_eq_none p rs]


/-- C6: in both backends, confirming an already-confirmed record succeeds
with no state change, a successful confirm is idempotent, and Confirm and
Delete return NotFound exactly when no record with the id exists (so
repeated deletes of an absent id return NotFound every time, the state
being untouched). -/
theorem confirm_delete_notfound_spec (db : List StoredRow) (id : String) :
    ((∀ r ∈ db, r.id = id → r.confirmed = true) → (∃ r ∈ db, r.id = id) →
      sqliteConfirmMessage true db id = .ok db) ∧
    ((∀ r ∈ db, r.id = id → r.confirmed = true) → (∃ r ∈ db, r.id = id) →
      mongoConfirmMessage true db id = .ok db) ∧
    (∀ db', sqliteConfirmMessage true db id = .ok db' →
      sqliteConfirmMessage true db' id = .ok db') ∧
    (∀ db', mongoConfirmMessage true db id = .ok db' →
      mongoConfirmMessage true db' id = .ok db') ∧
    (sqliteConfirmMessage true db id = .error .messageNotFound ↔ ∀ r ∈ db, r.id ≠ id) ∧
    (sqliteDeleteMessage true db id = .error .messageNotFound ↔ ∀ r ∈ db, r.id ≠ id) ∧
    (mongoConfirmMessage true db id = .error .messageNotFound ↔ ∀ r ∈ db, r.id ≠ id) ∧
    (mongoDeleteMessage true db id = .error .messageNotFound ↔ ∀ r ∈ db, r.id ≠ id) := by
  have hp : ∀ r : StoredRow,
      (({ r with confirmed := true } : StoredRow).id == id) = (r.id == id) :=
    fun r => rfl
  have hf : ∀ r : StoredRow,
      ({ ({ r with confirmed := true } : StoredRow) with confirmed := true } : StoredRow) =
        { r with confirmed := true } :=
    fun r => rfl
  refine ⟨?_, ?_, ?_, ?_, ?_, ?_, ?_, ?_⟩
  · intro hall hex
    have hself := updateWhere_self (fun r => r.id == id)
      (fun r => { r with confirmed := true }) db
      (fun r hr hpr => by
        have h1 : r.id = id := by simpa using hpr
        have h2 := hall r hr h1
        cases r
        simp_all)
    have hnz : ¬ (updateWhere (fun r => r.id == id)
        (fun r => { r with confirmed := true }) db).1 = 0 := by
      rw [updateWhere_fst_eq_zero]
      push_neg
      rcases hex with ⟨r, hr, hid⟩
      exact ⟨r, hr, by simp [hid]⟩
    simp only [sqliteConfirmMessage, Bool.not_true, Bool.false_eq_true, if_false]
    rw [if_neg hnz, hself]
  · intro hall hex
    have hsome := updateFirstWhere_self (fun r => r.id == id)
      (fun r => { r with confirmed := true }) db
      (fun r hr hpr => by
        have h1 : r.id = id := by simpa using hpr
        have h2 := hall r hr h1
        cases r
        simp_all)
      (by
        rcases hex with ⟨r, hr, hid⟩
        exact ⟨r, hr, by simp [hid]⟩)
    simp only [mongoConfirmMessage, Bool.not_true, Bool.false_eq_true, if_false, hsome]
  · intro db' h
    simp only [sqliteConfirmMessage, Bool.not_true, Bool.false_eq_true, if_false] at h ⊢
    by_cases h0 : (updateWhere (fun r => r.id == id)
        (fun r => { r with confirmed := true }) db).1 = 0
    · rw [if_pos h0] at h
      exact absurd h (by simp)
    · rw [if_neg h0] at h
      have hdb' : (updateWhere (fun r => r.id == id)
          (fun r => { r with confirmed := true }) db).2 = db' := by
        simpa using h
      have hidem := updateWhere_idem (fun r => r.id == id)
        (fun r => { r with confirmed := true }) hp hf db
      rw [hdb'] at hidem
      rw [hidem]
      rw [if_neg h0]
  · intro db' h
    simp only [mongoConfirmMessage, Bool.not_true, Bool.false_eq_true, if_false] at h ⊢
    rcases hm : updateFirstWhere (fun r => r.id == id)
        (fun r => { r with confirmed := true }) db with _ | v
    · rw [hm] at h
      exact absurd h (by simp)
    · rw [hm] at h
      have hv : v = db' := by simpa using h
      subst hv
      rw [updateFirstWhere_idem (fun r => r.id == id)
        (fun r => { r with confirmed := true }) hp hf db v hm]
  · simp only [sqliteConfirmMessage, Bool.not_true, Bool.false_eq_true, if_false]
    by_cases h0 : (updateWhere (fun r => r.id == id)
        (fun r => { r with confirmed := true }) db).1 = 0
    · rw [if_pos h0]
      have hall := (updateWhere_fst_eq_zero _ _ db).mp h0
      exact ⟨fun _ => fun r hr => by simpa using hall r hr, fun _ => rfl⟩
    · rw [if_neg h0]
      constructor
      · intro h
        exact absurd h (by simp)
      · intro hall
        exfalso
        apply h0
        rw [updateWhere_fst_eq_zero]
        intro r hr
        simpa using hall r hr
  · simp only [sqliteDeleteMessage, Bool.not_true, Bool.false_eq_true, if_false]
    by_cases h0 : (deleteWhere (fun r => r.id == id) db).1 = 0
    · rw [if_pos h0]
      have hall := (deleteWhere_fst_eq_zero _ db).mp h0
      exact ⟨fun _ => fun r hr => by simpa using hall r hr, fun _ => rfl⟩
    · rw [if_neg h0]
      constructor
      · intro h
        exact absurd h (by simp)
      · intro hall
        exfalso
        apply h0
        rw [deleteWhere_fst_eq_zero]
        intro r hr
        simpa using hall r hr
  · simp only [mongoConfirmMessage, Bool.not_true, Bool.false_eq_true, if_false]
    rcases hm : updateFirstWhere (fun r => r.id == id)
        (fun r => { r with confirmed := true }) db with _ | v
    · have hall := (updateFirstWhere_eq_none _ _ db).mp hm
      exact ⟨fun _ => fun r hr => by simpa using hall r hr, fun _ => rfl⟩
    · constructor
      · intro h
        exact absurd h (by simp)
      · intro hall
        have : updateFirstWhere (fun r => r.id == id)
            (fun r => { r with confirmed := true }) db = none := by
          rw [updateFirstWhere_eq_none]
          intro r hr
          simpa using hall r hr
        rw [hm] at this
        exact absurd this (by simp)
  · simp only [mongoDeleteMessage, Bool.not_true, Bool.false_eq_true, if_false]
    rcases hm : deleteFirstWhere (fun r => r.id == id) db with _ | v
    · have hall := (deleteFirstWhere_eq_none _ db).mp hm
      exact ⟨fun _ => fun r hr => by simpa using hall r hr, fun _ => rfl⟩
    · constructor
      · intro h
        exact absurd h (by simp)
      · intro hall
        have : deleteFirstWhere (fun r => r.id == id) db = none := by
          rw [deleteFirstWhere_eq_none]
          intro r hr
          simpa using hall r hr
        rw [hm] at this
        exact absurd this (by simp)

/-- Witness for C6: confirming an already-confirmed concrete record
succeeds and leaves the store unchanged. -/
theorem confirm_delete_notfound_spec_witness :
    sqliteConfirmMessage true [⟨"1", "t", .text "v1", 1, false, 5, true⟩] "1" =
      .ok [⟨"1", "t", .text "v1", 1, false, 5, true⟩] :=
  (confirm_delete_notfound_spec [⟨"1", "t", .text "v1", 1, false, 5, true⟩] "1").1
    (by simp) ⟨⟨"1", "t", .text "v1", 1, false, 5, true⟩, by simp, rfl⟩

theorem deleteWhere_eq (p : StoredRow → Bool) :
    ∀ db : List StoredRow,
      deleteWhere p db = ((db.filter p).length, db.filter (fun r => !p r))
  | [] => rfl
  | r :: rs => by
    by_cases h : p r = true
    · simp [deleteWhere, List.filter_cons, h, deleteWhere_eq p rs]
    · have hr : p r = false := by simpa using h
      simp [deleteWhere, List.filter_cons, h, hr, deleteWhere_eq p rs]

/-- C7: in both backends, PurgeConfirmed removes exactly the confirmed
records, returns their count, and leaves every unconfirmed record in
place; and for a concrete record stored unconfirmed and then confirmed,
the purge returns count 1 and the record is no longer retrievable. -/
theorem purgeConfirmed_spec (db : List StoredRow) :
    (sqliteDeleteConfirmedMessages true db =
      .ok ((db.filter (fun r => r.confirmed)).length,
        db.filter (fun r => !r.confirmed))) ∧
    (mongoDeleteConfirmedMessages true db =
      .ok ((db.filter (fun r => r.confirmed)).length,
        db.filter (fun r => !r.confirmed))) ∧
    (sqliteStoreMessage true [] ⟨"", "t", .str "v1", 1, false, 0, false⟩ 7 =
      .ok ("7", [⟨"7", "t", .text "v1", 1, false, 7, false⟩]) ∧
    sqliteConfirmMessage true [⟨"7", "t", .text "v1", 1, false, 7, false⟩] "7" =
      .ok [⟨"7", "t", .text "v1", 1, false, 7, true⟩] ∧
    sqliteDeleteConfirmedMessages true [⟨"7", "t", .text "v1", 1, false, 7, true⟩] =
      .ok (1, []) ∧
    sqliteGetMessageByID true [] "7" = .error .messageNotFound) := by
  refine ⟨?_, ?_, rfl, rfl, rfl, rfl⟩
  · simp only [sqliteDeleteConfirmedMessages, Bool.not_true, Bool.false_eq_true,
      if_false, deleteWhere_eq]
  · simp only [mongoDeleteConfirmedMessages, Bool.not_true, Bool.false_eq_true,
      if_false, deleteWhere_eq]

/-! ## Webhook request headers (internal/api/api.go lines 560-569)

Go `req.Header.Set` canonicalizes the key (`textproto.CanonicalMIMEHeaderKey`)
and replaces the entry. Headers are modelled as an association list whose
stored keys are canonical; a Go map's iteration order is arbitrary, so the
custom-header map is modelled as a list of key-value pairs in iteration
order. -/

/-- Go `validHeaderFieldByte`: ASCII letters, digits, and the token
characters, written via character codes. -/
def isTokenChar (c : Char) : Bool :=
  let n := c.toNat
  (48 ≤ n && n ≤ 57) || (65 ≤ n && n ≤ 90) || (97 ≤ n && n ≤ 122) ||
  n == 33 || n == 35 || n == 36 || n == 37 || n == 38 || n == 39 ||
  n == 42 || n == 43 || n == 45 || n == 46 || n == 94 || n == 95 ||
  n == 96 || n == 124 || n == 126

/-- The canonicalization loop: uppercase a letter at the start or after a
hyphen, lowercase it otherwise ('-' is unchanged by either). -/
def canonicalChars : Bool → List Char → List Char
  | _, [] => []
  | upper, c :: cs =>
    (if upper then c.toUpper else c.toLower) :: canonicalChars (c == '-') cs

/-- Go `textproto.CanonicalMIMEHeaderKey`: canonicalize when every byte is
a valid header-field byte, otherwise return the key unchanged. -/
def canonicalMIMEHeaderKey (s : String) : String :=
  if s.data.all isTokenChar then (canonicalChars true s.data).asString else s

/-- Go `http.Header.Set(key, value)`: replace the entry under the
canonical key, appending when absent. -/
def headerSet (h : List (String × String)) (key value : String) :
    List (String × String) :=
  let k := canonicalMIMEHeaderKey key
  if h.any (fun q => q.1 == k) then
    h.map (fun q => if q.1 == k then (k, value) else q)
  else h ++ [(k, value)]

/-- Go `http.Header.Get(key)`: the value stored under the canonical key. -/
def headerGet (h : List (String × String)) (key : String) : Option String :=
  (h.find? (fun q => q.1 == canonicalMIMEHeaderKey key)).map (fun q => q.2)

/-- The header construction of `sendWebhookNotificationToURL`: first the
two reserved headers, then every custom header, each applied with `Set`. -/
def buildWebhookRequestHeaders (custom : List (String × String)) :
    List (String × String) :=
  let base := headerSet (headerSet [] "Content-Type" "application/json")
    "User-Agent" "MQTT-Microservice"
  custom.foldl (fun acc kv => headerSet acc kv.1 kv.2) base

theorem find?_map_replace_eq (ck v : String) :
    ∀ h : List (String × String), h.any (fun q => q.1 == ck) = true →
      (h.map (fun q => if q.1 == ck then (ck, v) else q)).find?
        (fun q => q.1 == ck) = some (ck, v)
  | [], hany => by simp at hany
  | q :: qs, hany => by
    rw [List.map_cons]
    by_cases hq : (q.1 == ck) = true
    · rw [if_pos hq, List.find?_cons]
      have hdd : (((ck, v) : String × String).1 == ck) = true := by simp
      rw [hdd]
    · have hqf : (q.1 == ck) = false := by simpa using hq
      have hrest : qs.any (fun q => q.1 == ck) = true := by
        simp only [List.any_cons, Bool.or_eq_true] at hany
        rcases hany with h | h
        · exact absurd h hq
        · exact h
      rw [if_neg hq, List.find?_cons, hqf]
      exact find?_map_replace_eq ck v qs hrest

theorem find?_map_replace_ne (ck ck' v : String) (hne : ck' ≠ ck) :
    ∀ h : List (String × String),
      (h.map (fun q => if q.1 == ck then (ck, v) else q)).find?
        (fun q => q.1 == ck') = h.find? (fun q => q.1 == ck')
  | [] => rfl
  | q :: qs => by
    rw [List.map_cons]
    by_cases hq : (q.1 == ck) = true
    · have hq' : q.1 = ck := by simpa using hq
      have hckne : (((ck, v) : String × String).1 == ck') = false := by
        simp [Ne.symm hne]
      have hqne : (q.1 == ck') = false := by
        simp [hq', Ne.symm hne]
      rw [if_pos hq, List.find?_cons, List.find?_cons, hckne, hqne]
      exact find?_map_replace_ne ck ck' v hne qs
    · rw [if_neg hq, List.find?_cons, List.find?_cons]
      by_cases hq' : (q.1 == ck') = true
      · rw [hq']
      · have hqf' : (q.1 == ck') = false := by simpa using hq'
        rw [hqf']
        exact find?_map_replace_ne ck ck' v hne qs

theorem headerGet_headerSet_of_eq (h : List (String × String)) (k v k' : String)
    (heq : canonicalMIMEHeaderKey k' = canonicalMIMEHeaderKey k) :
    headerGet (headerSet h k v) k' = some v := by
  unfold headerGet headerSet
  rw [heq]
  by_cases hany : h.any (fun q => q.1 == canonicalMIMEHeaderKey k) = true
  · rw [if_pos hany]
    rw [find?_map_replace_eq _ _ h hany]
    rfl
  · rw [if_neg hany]
    rw [List.find?_append]
    have hnone : h.find? (fun q => q.1 == canonicalMIMEHeaderKey k) = none := by
      have hanyf : h.any (fun q => q.1 == canonicalMIMEHeaderKey k) = false :=
        Bool.eq_false_iff.mpr hany
      rw [List.find?_eq_none]
      intro q hqmem
      exact List.any_eq_false.mp hanyf q hqmem
    rw [hnone, Option.none_or, List.find?_cons]
    have hdd : (((canonicalMIMEHeaderKey k, v) : String × String).1 ==
        canonicalMIMEHeaderKey k) = true := by simp
    rw [hdd]
    rfl

theorem headerGet_headerSet_of_ne (h : List (String × String)) (k v k' : String)
    (hne : canonicalMIMEHeaderKey k' ≠ canonicalMIMEHeaderKey k) :
    headerGet (headerSet h k v) k' = headerGet h k' := by
  unfold headerGet headerSet
  by_cases hany : h.any (fun q => q.1 == canonicalMIMEHeaderKey k) = true
  · rw [if_pos hany]
    rw [find?_map_replace_ne _ _ _ hne h]
  · rw [if_neg hany]
    rw [List.find?_append]
    have hlast : List.find? (fun q => q.1 == canonicalMIMEHeaderKey k')
        [(canonicalMIMEHeaderKey k, v)] = none := by
      rw [List.find?_eq_none]
      intro q hqmem
      simp only [List.mem_singleton] at hqmem
      subst hqmem
      simpa using Ne.symm hne
    rw [hlast, Option.or_none]

theorem headerGet_headerSet_isSome (h : List (String × String)) (k v k' : String)
    (hs : (headerGet h k').isSome = true) :
    (headerGet (headerSet h k v) k').isSome = true := by
  by_cases heq : canonicalMIMEHeaderKey k' = canonicalMIMEHeaderKey k
  · rw [headerGet_headerSet_of_eq h k v k' heq]
    rfl
  · rw [headerGet_headerSet_of_ne h k v k' heq]
    exact hs

theorem headerGet_foldl_of_ne (target : String) :
    ∀ (custom : List (String × String)) (h : List (String × String)),
      (∀ kv ∈ custom, canonicalMIMEHeaderKey target ≠ canonicalMIMEHeaderKey kv.1) →
      headerGet (custom.foldl (fun acc kv => headerSet acc kv.1 kv.2) h) target =
        headerGet h target
  | [], _, _ => rfl
  | kv :: rest, h, hall => by
    rw [List.foldl_cons]
    rw [headerGet_foldl_of_ne target rest _
      (fun x hx => hall x (List.mem_cons_of_mem kv hx))]
    exact headerGet_headerSet_of_ne h kv.1 kv.2 target
      (hall kv (List.mem_cons_self kv rest))

theorem headerGet_foldl_isSome (target : String) :
    ∀ (custom : List (String × String)) (h : List (String × String)),
      (headerGet h target).isSome = true →
      (headerGet (custom.foldl (fun acc kv => headerSet acc kv.1 kv.2) h)
        target).isSome = true
  | [], _, hs => hs
  | kv :: rest, h, hs => by
    rw [List.foldl_cons]
    exact headerGet_foldl_isSome target rest _
      (headerGet_headerSet_isSome h kv.1 kv.2 target hs)

/-- Counterexample for C3: a custom header named `Content-Type` overrides
the reserved content-type header, because the custom headers are applied
with `Set` after the reserved ones. -/
theorem reserved_headers_claim_counterexample :
    headerGet (buildWebhookRequestHeaders [("Content-Type", "text/plain")])
      "Content-Type" = some "text/plain" ∧
    headerGet (buildWebhookRequestHeaders [("Content-Type", "text/plain")])
      "Content-Type" ≠ some "application/json" := by
  decide

/-- C3 amended: every outgoing webhook request carries a content-type and
a relay-identifier header, and as long as no custom header canonicalizes
to one of the two reserved names the reserved values survive; a custom
header with a reserved name, however, overrides the reserved value, since
the custom headers are applied after the reserved ones. -/
theorem reserved_headers_amended (custom : List (String × String)) :
    (headerGet (buildWebhookRequestHeaders custom) "Content-Type").isSome = true ∧
    (headerGet (buildWebhookRequestHeaders custom) "User-Agent").isSome = true ∧
    ((∀ kv ∈ custom, canonicalMIMEHeaderKey kv.1 ≠ "Content-Type") →
      headerGet (buildWebhookRequestHeaders custom) "Content-Type" =
        some "application/json") ∧
    ((∀ kv ∈ custom, canonicalMIMEHeaderKey kv.1 ≠ "User-Agent") →
      headerGet (buildWebhookRequestHeaders custom) "User-Agent" =
        some "MQTT-Microservice") := by
  have hct : canonicalMIMEHeaderKey "Content-Type" = "Content-Type" := by decide
  have hua : canonicalMIMEHeaderKey "User-Agent" = "User-Agent" := by decide
  unfold buildWebhookRequestHeaders
  refine ⟨?_, ?_, ?_, ?_⟩
  · exact headerGet_foldl_isSome "Content-Type" custom _ (by decide)
  · exact headerGet_foldl_isSome "User-Agent" custom _ (by decide)
  · intro hall
    rw [headerGet_foldl_of_ne "Content-Type" custom _
      (fun kv hk => by rw [hct]; exact Ne.symm (hall kv hk))]
    decide
  · intro hall
    rw [headerGet_foldl_of_ne "User-Agent" custom _
      (fun kv hk => by rw [hua]; exact Ne.symm (hall kv hk))]
    decide

/-- Witness for C3 (amended): a custom header under a non-reserved name
leaves both reserved headers intact. -/
theorem reserved_headers_amended_witness :
    headerGet (buildWebhookRequestHeaders [("X-Api-Key", "k")]) "Content-Type" =
      some "application/json" :=
  (reserved_headers_amended [("X-Api-Key", "k")]).2.2.1 (by decide)

/-! ## Webhook registry (internal/models/webhook.go,
internal/api/database_handlers.go) -/

/-- Go `models.Webhook`. Numeric fields are Go `int` (may be negative);
timestamps are clock values with `0` for the zero time. Headers are a
key-value list. -/
structure Webhook where
  id : String
  name : String
  url : String
  method : String
  topicFilter : String
  enabled : Bool
  headers : List (String × String)
  timeout : Int
  retryCount : Int
  retryDelay : Int
  createdAt : Nat
  updatedAt : Nat
deriving DecidableEq

/-- Go `models.NewWebhook()`: the documented defaults — method `POST`,
enabled, timeout 10, retry count 3, retry delay 5. -/
def NewWebhook (now : Nat) : Webhook :=
  ⟨"", "", "", "POST", "", true, [], 10, 3, 5, now, now⟩

/-- Go `Webhook.Validate()`: the checks in source order, returning the
first error message, `none` when valid. -/
def webhookValidate (w : Webhook) : Option String :=
  if w.url = "" then some "URL is required"
  else if w.method = "" then some "Method is required"
  else if w.topicFilter = "" then some "Topic filter is required"
  else if w.timeout ≤ 0 then some "Timeout must be greater than 0"
  else if w.retryCount < 0 then some "Retry count must be greater than or equal to 0"
  else if w.retryDelay ≤ 0 then some "Retry delay must be greater than 0"
  else none

/-- Go `api.WebhookRequest`: the decoded request body; absent JSON fields
are the Go zero values (`""`, `0`, `false`). -/
structure WebhookRequest where
  name : String
  url : String
  method : String
  topicFilter : String
  enabled : Bool
  headers : List (String × String)
  timeout : Int
  retryCount : Int
  retryDelay : Int
deriving DecidableEq

/-- Outcome of the create handler: a 400 with a message, or the webhook
that is passed on to `StoreWebhook` (persistence happens only after a
`created` outcome; every `badRequest` is returned before persistence). -/
inductive CreateWebhookResult where
  | badRequest (msg : String)
  | created (w : Webhook)
deriving DecidableEq

/-- Lines 312-322 of database_handlers.go: start from `NewWebhook()` and
overwrite every field with the raw request field. -/
def webhookFromRequest (req : WebhookRequest) (now : Nat) : Webhook :=
  { NewWebhook now with
    name := req.name, url := req.url, method := req.method,
    topicFilter := req.topicFilter, enabled := req.enabled,
    headers := req.headers, timeout := req.timeout,
    retryCount := req.retryCount, retryDelay := req.retryDelay }

/-- Go `Server.handleCreateWebhook` (after body decoding): reject empty
URL or topic filter, build the webhook from the request, validate, and
only then persist. -/
def handleCreateWebhook (req : WebhookRequest) (now : Nat) : CreateWebhookResult :=
  if req.url = "" then .badRequest "URL is required"
  else if req.topicFilter = "" then .badRequest "Topic filter is required"
  else
    match webhookValidate (webhookFromRequest req now) with
    | some msg => .badRequest msg
    | none => .created (webhookFromRequest req now)

theorem webhookValidate_none_iff (w : Webhook) :
    webhookValidate w = none ↔
      w.url ≠ "" ∧ w.method ≠ "" ∧ w.topicFilter ≠ "" ∧
      0 < w.timeout ∧ 0 ≤ w.retryCount ∧ 0 < w.retryDelay := by
  unfold webhookValidate
  split_ifs with h1 h2 h3 h4 h5 h6
  · simp_all
  · simp_all
  · simp_all
  · simp only [reduceCtorEq, false_iff]
    intro hc
    omega
  · simp only [reduceCtorEq, false_iff]
    intro hc
    omega
  · simp only [reduceCtorEq, false_iff]
    intro hc
    omega
  · simp only [true_iff]
    refine ⟨h1, h2, h3, by omega, by omega, by omega⟩

/-- C8 (code evaluated at the failing input): a creation request that
omits the HTTP method is rejected with the `Method is required`
validation error — the `POST` default of `NewWebhook` is overwritten by
the raw request field, contradicting the documented default; and a
request is only ever passed on to persistence when the URL, topic filter
and numeric bounds are all valid. -/
theorem createWebhook_validation_spec :
    handleCreateWebhook ⟨"n", "https://example.com", "", "a/b", true, [], 10, 3, 5⟩ 1 =
      .badRequest "Method is required" ∧
    (∀ (req : WebhookRequest) (now : Nat) (w : Webhook),
      handleCreateWebhook req now = .created w →
      w.url ≠ "" ∧ w.method ≠ "" ∧ w.topicFilter ≠ "" ∧
      0 < w.timeout ∧ 0 ≤ w.retryCount ∧ 0 < w.retryDelay) := by
  refine ⟨by decide, ?_⟩
  intro req now w h
  unfold handleCreateWebhook at h
  by_cases hu : req.url = ""
  · rw [if_pos hu] at h
    exact absurd h (by simp)
  · rw [if_neg hu] at h
    by_cases ht : req.topicFilter = ""
    · rw [if_pos ht] at h
      exact absurd h (by simp)
    · rw [if_neg ht] at h
      rcases hv : webhookValidate (webhookFromRequest req now) with _ | msg
      · rw [hv] at h
        have hw : webhookFromRequest req now = w := by simpa using h
        rw [← hw]
        exact (webhookValidate_none_iff (webhookFromRequest req now)).mp hv
      · rw [hv] at h
        exact absurd h (by simp)

/-- Witness for C8's positive half: a fully specified valid request
reaches persistence with all bounds satisfied. -/
theorem createWebhook_validation_spec_witness :
    (⟨"", "n", "https://example.com", "POST", "a/b", true, [], 10, 3, 5, 1, 1⟩ :
      Webhook).url ≠ "" ∧
    (⟨"", "n", "https://example.com", "POST", "a/b", true, [], 10, 3, 5, 1, 1⟩ :
      Webhook).method ≠ "" ∧
    (⟨"", "n", "https://example.com", "POST", "a/b", true, [], 10, 3, 5, 1, 1⟩ :
      Webhook).topicFilter ≠ "" ∧
    0 < (⟨"", "n", "https://example.com", "POST", "a/b", true, [], 10, 3, 5, 1, 1⟩ :
      Webhook).timeout ∧
    0 ≤ (⟨"", "n", "https://example.com", "POST", "a/b", true, [], 10, 3, 5, 1, 1⟩ :
      Webhook).retryCount ∧
    0 < (⟨"", "n", "https://example.com", "POST", "a/b", true, [], 10, 3, 5, 1, 1⟩ :
      Webhook).retryDelay :=
  createWebhook_validation_spec.2
    ⟨"n", "https://example.com", "POST", "a/b", true, [], 10, 3, 5⟩ 1
    ⟨"", "n", "https://example.com", "POST", "a/b", true, [], 10, 3, 5, 1, 1⟩ rfl
